import Mathlib

/-!
Verification of the Trading212 portfolio monitor (`src/trading212_clean.py`,
Clean Foundation v1.7.3 "Append vs Manual overwrite").

The source file interleaves the pre-v1.7.3 reconciliation (which deleted every
row for the current date) with the v1.7.3 mode-aware reconciliation; the
v1.7.3 code — docstring: "auto: append rows only; manual: delete today's rows
where Mode == 'manual', then append" — is the later, authoritative version and
is what we embed here.

Modelling choices:
- Python floats are modelled by ℚ; every computation the claims mention is
  exact decimal arithmetic.
- A raw position field is `Option FieldVal`: `none` models a key absent from
  the dict (`raw_pos.get(k, 0)` then yields 0), `FieldVal.num q` a numeric
  value, `FieldVal.nonNum` a value on which `float(...)` raises `ValueError`
  (caught by the per-position handler, which skips the record).
- The FX cache (`FXRateAPI.get_rate`) is a state machine: the state carries
  the memoisation dict and the log of network calls issued; the outcome of a
  network request is an explicit input (`FXResponse`), `.bad` covering a
  request error, a missing `rates` entry, or a parse failure (all of which
  the code turns into a fail-open 1.0 without caching).
- The worksheet is a list of rows of tagged cells, 1-indexed as in gspread;
  `delete_rows`, `findall`, `cell(r, 11).value` and `append_rows` are pure
  functions on it.
-/

/-- One cell of a worksheet: a string or a number (gspread values). -/
inductive Cell where
  | str (s : String)
  | num (q : ℚ)
deriving DecidableEq, Repr

/-- A worksheet row. -/
abbrev Row := List Cell

/-- A worksheet: rows, 1-indexed as in gspread. -/
abbrev Sheet := List Row

/-- A raw numeric field value from the Trading212 API: either a number or
something on which Python's `float(...)` raises `ValueError`. -/
inductive FieldVal where
  | num (q : ℚ)
  | nonNum
deriving DecidableEq, Repr

/-- A raw position record (`GET /equity/portfolio` item); `none` fields are
keys absent from the dict. -/
structure RawPos where
  ticker : Option String
  quantity : Option FieldVal
  averagePrice : Option FieldVal
  currentPrice : Option FieldVal
  ppl : Option FieldVal
deriving DecidableEq, Repr

/-- A raw instrument metadata record (currencyCode / name may be absent). -/
structure Instrument where
  currencyCode : Option String
  name : Option String
deriving DecidableEq, Repr

/-- `Position` dataclass of the source. -/
structure Position where
  ticker : String
  display_name : String
  quantity : ℚ
  average_price : ℚ
  current_price : ℚ
  pnl : ℚ
  currency : String
  total_value_huf : ℚ
deriving DecidableEq, Repr

/-- `Position.total_value` property: `quantity * current_price`. -/
def Position.total_value (p : Position) : ℚ :=
  p.quantity * p.current_price

/-- `Portfolio` dataclass of the source (timezone omitted: no claim uses it). -/
structure Portfolio where
  positions : List Position
  timestamp : String
  total_pnl : ℚ
deriving DecidableEq, Repr

/-! ## FX rate cache (`FXRateAPI.get_rate`) -/

/-- Outcome of one FX network request: `.ok r` is a 200 response whose
`rates[to]` parses to `r`; `.bad` is a request exception, unexpected payload
or parse failure (the code returns 1.0 fail-open and caches nothing). -/
inductive FXResponse where
  | ok (rate : ℚ)
  | bad
deriving DecidableEq, Repr

/-- FX cache state: the memoisation dict `self.cache` plus the log of
currency pairs for which a network request was issued. -/
structure FXState where
  cache : List ((String × String) × ℚ)
  log : List (String × String)
deriving DecidableEq, Repr

/-- Association-list lookup (dict access keyed by the ordered pair). -/
def lookupPair (cache : List ((String × String) × ℚ)) (k : String × String) :
    Option ℚ :=
  match cache with
  | [] => none
  | (k', v) :: rest => if k' = k then some v else lookupPair rest k

/-- `FXRateAPI.get_rate`: returns 1.0 immediately when the currencies are
equal; otherwise serves from cache, or issues one network request (logged),
memoising the rate on success and returning a fail-open 1.0 (uncached) on
failure. -/
def get_rate (st : FXState) (from_currency to_currency : String)
    (resp : FXResponse) : ℚ × FXState :=
  if from_currency = to_currency then (1, st)
  else
    match lookupPair st.cache (from_currency, to_currency) with
    | some r => (r, st)
    | none =>
      match resp with
      | .ok r =>
        (r, { cache := ((from_currency, to_currency), r) :: st.cache,
              log := st.log ++ [(from_currency, to_currency)] })
      | .bad =>
        (1, { cache := st.cache,
              log := st.log ++ [(from_currency, to_currency)] })

/-! ## Position normalisation (`PortfolioProcessor.process`, per-record part) -/

/-- `startsW t pat`: the char list `t` starts with `pat`. -/
def startsW : List Char → List Char → Bool
  | _, [] => true
  | [], _ :: _ => false
  | a :: as, b :: bs => a == b && startsW as bs

/-- `hasSub t pat`: the char list `pat` occurs contiguously in `t`
(Python's `pat in t` on strings). -/
def hasSub : List Char → List Char → Bool
  | [], pat => pat.isEmpty
  | t@(_ :: rest), pat => startsW t pat || hasSub rest pat

/-- Association-list lookup for the instrument metadata dict. -/
def lookupInstr (md : List (String × Instrument)) (t : String) :
    Option Instrument :=
  match md with
  | [] => none
  | (k, v) :: rest => if k = t then some v else lookupInstr rest t

/-- Currency / display-name resolution: metadata entry if the dict is present
and contains the ticker, else the `_US_` ticker-marker convention (USD if the
marker occurs, default EUR). -/
def resolveCurrency (md : Option (List (String × Instrument)))
    (ticker : String) : String × String :=
  match md.bind (fun m => lookupInstr m ticker) with
  | some inst => (inst.currencyCode.getD "EUR", inst.name.getD ticker)
  | none =>
    (if hasSub ticker.data "_US_".data then "USD" else "EUR", ticker)

/-- FX rate applied to a position: the pre-fetched USD→HUF or EUR→HUF rate,
and the literal 1.0 for every other currency. -/
def fxRateFor (currency : String) (usd_huf eur_huf : ℚ) : ℚ :=
  if currency = "USD" then usd_huf
  else if currency = "EUR" then eur_huf
  else 1

/-- `float(raw_pos.get(k, 0))`: absent key defaults to 0, a numeric value
parses to itself, a non-numeric value raises (modelled as `none`). -/
def parseField : Option FieldVal → Option ℚ
  | none => some 0
  | some (.num q) => some q
  | some .nonNum => none

/-- The four `float(...)` conversions of one raw record; `none` iff any of
them raises `ValueError` (the record is then skipped). -/
def parseFields (raw : RawPos) : Option (ℚ × ℚ × ℚ × ℚ) :=
  match parseField raw.quantity, parseField raw.averagePrice,
      parseField raw.currentPrice, parseField raw.ppl with
  | some q, some a, some c, some p => some (q, a, c, p)
  | _, _, _, _ => none

/-- One iteration of the `for raw_pos in raw_positions` loop: `none` when the
record is skipped, otherwise the built `Position` together with its
`pnl * fx_rate` contribution to `total_pnl_huf`. -/
def processOne (md : Option (List (String × Instrument)))
    (usd_huf eur_huf : ℚ) (raw : RawPos) : Option (Position × ℚ) :=
  (parseFields raw).map (fun x =>
    let ticker := raw.ticker.getD "UNKNOWN"
    let cd := resolveCurrency md ticker
    let fx := fxRateFor cd.1 usd_huf eur_huf
    ({ ticker := ticker
       display_name := cd.2
       quantity := x.1
       average_price := x.2.1
       current_price := x.2.2.1
       pnl := x.2.2.2
       currency := cd.1
       total_value_huf := x.1 * x.2.2.1 * fx }, x.2.2.2 * fx))

/-- A raw record is valid iff all four required numeric fields convert. -/
def validRaw (raw : RawPos) : Prop :=
  (parseFields raw).isSome

instance (raw : RawPos) : Decidable (validRaw raw) := by
  unfold validRaw; infer_instance

/-- `PortfolioProcessor.process`: `none` on an empty input list; otherwise
normalises each record (skipping invalid ones), and returns `none` again when
no valid position remains, else the assembled `Portfolio` whose `total_pnl`
is the sum of the per-position `pnl * fx_rate` contributions. The timestamp
is `datetime.now(tz).isoformat()`, passed in here as `ts`. -/
def process (md : Option (List (String × Instrument)))
    (usd_huf eur_huf : ℚ) (ts : String) (raw_positions : List RawPos) :
    Option Portfolio :=
  if raw_positions.isEmpty then none
  else
    let results := raw_positions.filterMap (processOne md usd_huf eur_huf)
    if results.isEmpty then none
    else
      some { positions := results.map Prod.fst
             timestamp := ts
             total_pnl := (results.map Prod.snd).sum }

/-- The FX lookups `process` issues: none at all on an empty input (it
returns before reaching the FX code), otherwise exactly the two pre-fetches
`get_rate("USD", "HUF")` and `get_rate("EUR", "HUF")`; no per-position
lookup is ever made. -/
def processLookups (raw_positions : List RawPos) : List (String × String) :=
  if raw_positions.isEmpty then [] else [("USD", "HUF"), ("EUR", "HUF")]

/-! ## Run-mode selection (`Application.fetch_and_upload_to_gsheet`) -/

/-- Mode determination: `'auto' if gh_event == 'schedule' else 'manual'`,
where `gh_event = os.getenv('GITHUB_EVENT_NAME', '')`. -/
def runMode (gh_event : String) : String :=
  if gh_event = "schedule" then "auto" else "manual"

/-! ## Spreadsheet reconciliation (`GoogleSheets.upsert_daily_data`, v1.7.3) -/

/-- The cell at 1-based (row, column), `none` if out of range. -/
def cellAt (ws : Sheet) (r c : ℕ) : Option Cell :=
  (ws.get? (r - 1)).bind (fun row => row.get? (c - 1))

/-- `worksheet.acell('A1').value is None`: A1 is out of range or an empty
string (gspread reports an empty cell's value as `None`). -/
def isNewSheet (ws : Sheet) : Bool :=
  match cellAt ws 1 1 with
  | none => true
  | some (.str s) => s = ""
  | some (.num _) => false

/-- The v1.7.2 header row (no Total P&L column, Mode marker appended). -/
def headerRow : Row :=
  [.str "Date", .str "Timestamp", .str "Ticker", .str "Quantity",
   .str "Avg Price", .str "Current Price", .str "P&L", .str "Currency",
   .str "Total value in foreign currency", .str "Total value in HUF",
   .str "Mode"]

/-- `worksheet.findall(v, in_column=c)`: the 1-based indices of the rows
whose cell in column `c` holds the string `v`, in ascending order. -/
def findallCol (ws : Sheet) (v : String) (c : ℕ) : List ℕ :=
  (List.range ws.length).filterMap (fun i =>
    if cellAt ws (i + 1) c = some (.str v) then some (i + 1) else none)

/-- `(worksheet.cell(r, c).value or '')`: the string in the cell, `''` when
the cell is out of range (modelling the swallowed per-cell exception) or
numeric. -/
def cellValStr (ws : Sheet) (r c : ℕ) : String :=
  match cellAt ws r c with
  | some (.str s) => s
  | _ => ""

/-- Python's `s[:10]` slice on a string, modelled on the char list. -/
def takeStr (s : String) (n : ℕ) : String :=
  String.mk (s.data.take n)

/-- Python's `str.lower()` restricted to ASCII (all values compared here are
ASCII tags), modelled on the char list. -/
def lowerStr (s : String) : String :=
  String.mk (s.data.map Char.toLower)

/-- `worksheet.delete_rows(s, e)`: removes the rows with 1-based index in
`[s, e]`. -/
def deleteRows (ws : Sheet) (s e : ℕ) : Sheet :=
  ws.enum.filterMap (fun x =>
    if s ≤ x.1 + 1 ∧ x.1 + 1 ≤ e then none else some x.2)

/-- Python's `list.sort()` on row indices: a stable ascending sort. -/
def sortAsc (l : List ℕ) : List ℕ :=
  List.insertionSort (· ≤ ·) l

/-- The coalescing loop over the tail of the sorted index list: the current
run is `[s, e]`; a successor extends it exactly when it equals `e + 1`,
otherwise the run is emitted and a new one starts. -/
def coalesceGo (s e : ℕ) : List ℕ → List (ℕ × ℕ)
  | [] => [(s, e)]
  | r :: rest =>
    if r = e + 1 then coalesceGo s r rest
    else (s, e) :: coalesceGo r r rest

/-- Maximal contiguous runs of a sorted index list. -/
def coalesce : List ℕ → List (ℕ × ℕ)
  | [] => []
  | r :: rest => coalesceGo r r rest

/-- The `delete_rows(start, end)` operations the manual branch issues for a
given `rows_to_delete` list: sort ascending, then one operation per maximal
contiguous run, in ascending order. -/
def deleteOps (rows_to_delete : List ℕ) : List (ℕ × ℕ) :=
  coalesce (sortAsc rows_to_delete)

/-- Applying the issued delete operations to the live worksheet in order
(each operation acts on the sheet as left by the previous one). -/
def applyDeleteOps (ws : Sheet) (ops : List (ℕ × ℕ)) : Sheet :=
  ops.foldl (fun w op => deleteRows w op.1 op.2) ws

/-- The row appended for one position: Date, Timestamp, Ticker, Quantity,
Avg Price, Current Price, P&L, Currency, native total value, HUF total
value, Mode. -/
def rowFor (current_date timestamp_str mode : String) (pos : Position) :
    Row :=
  [.str current_date, .str timestamp_str, .str pos.ticker,
   .num pos.quantity, .num pos.average_price, .num pos.current_price,
   .num pos.pnl, .str pos.currency, .num pos.total_value,
   .num pos.total_value_huf, .str mode]

/-- `GoogleSheets.upsert_daily_data` (v1.7.3): write the header on a new
sheet; in `manual` mode find today's rows (column 1), keep those whose Mode
cell (column 11) lowercases to `manual`, and delete them as coalesced
contiguous ranges; in every other mode delete nothing; finally append one
row per position tagged with the mode. -/
def upsert_daily_data (ws : Sheet) (portfolio : Portfolio) (mode : String) :
    Sheet :=
  let ws1 := if isNewSheet ws then ws ++ [headerRow] else ws
  let current_date := takeStr portfolio.timestamp 10
  let ws2 :=
    if mode = "manual" then
      let all_today := findallCol ws1 current_date 1
      let rows_to_delete :=
        all_today.filter (fun r => lowerStr (cellValStr ws1 r 11) = "manual")
      applyDeleteOps ws1 (deleteOps rows_to_delete)
    else ws1
  ws2 ++ portfolio.positions.map (rowFor current_date portfolio.timestamp mode)

/-! ## Helper lemmas -/

/-- Unfolding a successful `processOne`: the built position's currency is the
resolved one, its HUF value is `quantity * current_price * fx_rate`, and its
`total_pnl_huf` contribution is `pnl * fx_rate`. -/
theorem processOne_fields (md : Option (List (String × Instrument)))
    (usd_huf eur_huf : ℚ) (raw : RawPos) (pos : Position) (contrib : ℚ)
    (hp : processOne md usd_huf eur_huf raw = some (pos, contrib)) :
    pos.currency = (resolveCurrency md (raw.ticker.getD "UNKNOWN")).1 ∧
    pos.total_value_huf =
      pos.quantity * pos.current_price * fxRateFor pos.currency usd_huf eur_huf ∧
    contrib = pos.pnl * fxRateFor pos.currency usd_huf eur_huf := by
  unfold processOne at hp
  rcases Option.map_eq_some'.mp hp with ⟨x, hx, hb⟩
  have hpos := congrArg Prod.fst hb
  have hcon := congrArg Prod.snd hb
  simp only at hpos hcon
  subst hpos
  subst hcon
  simp

/-- `sortAsc` returns an ascending reordering of its input. -/
theorem sortAsc_sorted (l : List ℕ) : List.Sorted (· ≤ ·) (sortAsc l) := by
  exact List.sorted_insertionSort _ l

theorem sortAsc_perm (l : List ℕ) : List.Perm (sortAsc l) l := by
  exact List.perm_insertionSort _ l

/-- On a duplicate-free input, `sortAsc` is strictly ascending. -/
theorem sortAsc_pairwise_lt (l : List ℕ) (hnd : l.Nodup) :
    (sortAsc l).Pairwise (· < ·) := by
  have h1 : (sortAsc l).Pairwise (· ≤ ·) := sortAsc_sorted l
  have h2 : (sortAsc l).Nodup := ((sortAsc_perm l).nodup_iff).mpr hnd
  exact (h1.and h2).imp (fun h => lt_of_le_of_ne h.1 h.2)

/-- The row indices a `delete_rows` operation removes. -/
def flattenOp (op : ℕ × ℕ) : List ℕ :=
  List.range' op.1 (op.2 + 1 - op.1)

/-- Invariants of the coalescing loop on a strictly ascending remainder: the
emitted operations cover exactly the current run plus the remainder, runs are
separated by genuine gaps, each run is well-formed, and the first emitted
operation starts at the current run's start. -/
theorem coalesceGo_spec (rest : List ℕ) : ∀ s e : ℕ, s ≤ e →
    (∀ x ∈ rest, e < x) → rest.Pairwise (· < ·) →
    (coalesceGo s e rest).flatMap flattenOp = List.range' s (e + 1 - s) ++ rest ∧
    List.Chain' (fun a b : ℕ × ℕ => a.2 + 1 < b.1) (coalesceGo s e rest) ∧
    List.Forall (fun op : ℕ × ℕ => op.1 ≤ op.2) (coalesceGo s e rest) ∧
    (∃ e', (coalesceGo s e rest).head? = some (s, e') ∧ e ≤ e') := by
  induction rest with
  | nil =>
    intro s e hse _ _
    refine ⟨by simp [coalesceGo, flattenOp], by simp [coalesceGo],
      by simp [coalesceGo, hse], ⟨e, by simp [coalesceGo], le_refl e⟩⟩
  | cons r rest ih =>
    intro s e hse hgt hp
    have her : e < r := hgt r (List.mem_cons_self r rest)
    have hrest_gt : ∀ x ∈ rest, r < x := (List.pairwise_cons.mp hp).1
    have hrest_p : rest.Pairwise (· < ·) := (List.pairwise_cons.mp hp).2
    by_cases hr : r = e + 1
    · have hsr : s ≤ r := by omega
      obtain ⟨hf, hc, hall, e', hh, he'⟩ := ih s r hsr hrest_gt hrest_p
      have hgo : coalesceGo s e (r :: rest) = coalesceGo s r rest := by
        simp [coalesceGo, hr]
      refine ⟨?_, by rw [hgo]; exact hc, by rw [hgo]; exact hall,
        ⟨e', by rw [hgo]; exact hh, by omega⟩⟩
      rw [hgo, hf]
      have hlen : r + 1 - s = (e + 1 - s) + 1 := by omega
      have hcat : List.range' s ((e + 1 - s) + 1) =
          List.range' s (e + 1 - s) ++ [s + 1 * (e + 1 - s)] :=
        List.range'_concat s (e + 1 - s)
      have hval : s + 1 * (e + 1 - s) = r := by omega
      rw [hlen, hcat, hval, List.append_assoc, List.singleton_append]
    · have hgap : e + 1 < r := by omega
      obtain ⟨hf, hc, hall, e', hh, he'⟩ := ih r r (le_refl r) hrest_gt hrest_p
      have hgo : coalesceGo s e (r :: rest) = (s, e) :: coalesceGo r r rest := by
        simp [coalesceGo, hr]
      refine ⟨?_, ?_, ?_, ⟨e, by simp [hgo], le_refl e⟩⟩
      · rw [hgo, List.flatMap_cons, hf]
        have h1 : r + 1 - r = 1 := by omega
        rw [h1, List.range'_one, List.singleton_append]
        rfl
      · rw [hgo, List.chain'_cons']
        refine ⟨?_, hc⟩
        intro b hb
        rw [hh] at hb
        simp at hb
        rw [← hb]
        exact hgap
      · rw [hgo]
        exact (List.forall_cons _ _ _).mpr ⟨hse, hall⟩

/-- The coalescing of a strictly ascending index list covers exactly the
input, in order, with a gap between consecutive runs and each run
well-formed. -/
theorem coalesce_spec (l : List ℕ) (hp : l.Pairwise (· < ·)) :
    (coalesce l).flatMap flattenOp = l ∧
    List.Chain' (fun a b : ℕ × ℕ => a.2 + 1 < b.1) (coalesce l) ∧
    List.Forall (fun op : ℕ × ℕ => op.1 ≤ op.2) (coalesce l) := by
  cases l with
  | nil => exact ⟨rfl, by simp [coalesce], by simp [coalesce]⟩
  | cons r rest =>
    obtain ⟨hf, hc, hall, _⟩ := coalesceGo_spec rest r r (le_refl r)
      (List.pairwise_cons.mp hp).1 (List.pairwise_cons.mp hp).2
    refine ⟨?_, hc, hall⟩
    rw [show coalesce (r :: rest) = coalesceGo r r rest from rfl, hf]
    have h1 : r + 1 - r = 1 := by omega
    rw [h1, List.range'_one, List.singleton_append]

/-! ## Claim theorems -/

/-- C1: a reconciliation run with mode `auto` never deletes a row: the
resulting sheet extends the prior sheet (every prior row, for any date, is
still present at its original place), so auto runs only ever append (the
header on a new sheet and the snapshot's rows). -/
theorem auto_mode_appends_only (ws : Sheet) (portfolio : Portfolio) :
    ∃ tail, upsert_daily_data ws portfolio "auto" = ws ++ tail := by
  have hAM : (("auto" : String) = "manual") ↔ False :=
    ⟨fun h => absurd h (by decide), False.elim⟩
  refine ⟨(if isNewSheet ws then [headerRow] else []) ++
    portfolio.positions.map
      (rowFor (takeStr portfolio.timestamp 10) portfolio.timestamp "auto"), ?_⟩
  unfold upsert_daily_data
  cases hn : isNewSheet ws <;> simp [hAM]

/-- C3: the manual-mode deletion sorts the selected row indices ascending
(`sortAsc` is an ascending reordering of the input), coalesces them into
maximal contiguous runs, and issues one `delete_rows` operation per run in
ascending order: the issued operations, flattened back to row indices, are
exactly the sorted input; consecutive operations are separated by a genuine
gap (so each run is maximal); each operation's range is well-formed; and for
`rows_to_delete = [5, 6, 7, 10, 11]` exactly the two operations rows 5–7 then
rows 10–11 are issued. -/
theorem delete_ops_sorted_coalesced (l : List ℕ) (hnd : l.Nodup) :
    List.Sorted (· ≤ ·) (sortAsc l) ∧
    List.Perm (sortAsc l) l ∧
    (deleteOps l).flatMap flattenOp = sortAsc l ∧
    List.Chain' (fun a b : ℕ × ℕ => a.2 + 1 < b.1) (deleteOps l) ∧
    List.Forall (fun op : ℕ × ℕ => op.1 ≤ op.2) (deleteOps l) ∧
    deleteOps [5, 6, 7, 10, 11] = [(5, 7), (10, 11)] := by
  obtain ⟨hf, hc, hall⟩ := coalesce_spec (sortAsc l) (sortAsc_pairwise_lt l hnd)
  exact ⟨sortAsc_sorted l, sortAsc_perm l, hf, hc, hall, by decide⟩

/-- Witness for C3 at the concrete input `[5, 6, 7, 10, 11]`. -/
theorem delete_ops_sorted_coalesced_witness :
    List.Sorted (· ≤ ·) (sortAsc [5, 6, 7, 10, 11]) ∧
    List.Perm (sortAsc [5, 6, 7, 10, 11]) [5, 6, 7, 10, 11] ∧
    (deleteOps [5, 6, 7, 10, 11]).flatMap flattenOp = sortAsc [5, 6, 7, 10, 11] ∧
    List.Chain' (fun a b : ℕ × ℕ => a.2 + 1 < b.1) (deleteOps [5, 6, 7, 10, 11]) ∧
    List.Forall (fun op : ℕ × ℕ => op.1 ≤ op.2) (deleteOps [5, 6, 7, 10, 11]) ∧
    deleteOps [5, 6, 7, 10, 11] = [(5, 7), (10, 11)] :=
  delete_ops_sorted_coalesced [5, 6, 7, 10, 11] (by decide)

/-- C4: `get_rate(c, c)` returns exactly 1.0 with the state (cache and
network-call log) unchanged — no network call; and a position whose resolved
currency is the reporting currency HUF gets the literal rate 1.0: its HUF
value is exactly `quantity * current_price` (no lookup is involved in that
conversion: the rate is the constant 1.0 branch of `fxRateFor`). -/
theorem same_currency_rate_one (st : FXState) (c : String) (resp : FXResponse)
    (md : Option (List (String × Instrument))) (usd_huf eur_huf : ℚ)
    (raw : RawPos) (pos : Position) (contrib : ℚ)
    (hp : processOne md usd_huf eur_huf raw = some (pos, contrib))
    (hc : pos.currency = "HUF") :
    get_rate st c c resp = (1, st) ∧
    pos.total_value_huf = pos.quantity * pos.current_price := by
  obtain ⟨_, htv, _⟩ := processOne_fields md usd_huf eur_huf raw pos contrib hp
  refine ⟨by simp [get_rate], ?_⟩
  rw [htv, hc]
  have h1 : fxRateFor "HUF" usd_huf eur_huf = 1 := by
    unfold fxRateFor
    rw [if_neg (by decide), if_neg (by decide)]
  rw [h1, mul_one]

/-- Concrete instruments dict and raw record for the C4 witness: metadata
resolves the ticker T1 to currency HUF. -/
def mdHuf : Option (List (String × Instrument)) :=
  some [("T1", ⟨some "HUF", some "Ticker One"⟩)]

def rawHuf : RawPos :=
  ⟨some "T1", some (.num 2), some (.num 5), some (.num 3), some (.num 7)⟩

def posHuf : Position :=
  { ticker := "T1", display_name := "Ticker One", quantity := 2,
    average_price := 5, current_price := 3, pnl := 7, currency := "HUF",
    total_value_huf := 6 }

/-- Witness for C4: a HUF position processed with USD→HUF = 350,
EUR→HUF = 400. -/
theorem same_currency_rate_one_witness :
    get_rate ⟨[], []⟩ "HUF" "HUF" .bad = (1, ⟨[], []⟩) ∧
    posHuf.total_value_huf = posHuf.quantity * posHuf.current_price :=
  same_currency_rate_one ⟨[], []⟩ "HUF" .bad mdHuf 350 400 rawHuf posHuf 7
    (by
      norm_num [processOne, parseFields, parseField, rawHuf, mdHuf, posHuf,
        resolveCurrency, lookupInstr, fxRateFor, Position.total_value]
      decide) rfl

/-- C5 counterexample: when the network request fails, the fail-open 1.0 is
not memoized, so two lookups of the same pair (USD, HUF) in one process
lifetime issue two network calls — refuting "at most one network call per
distinct pair under any circumstance". -/
theorem fx_cache_two_calls_on_failure :
    ((get_rate (get_rate ⟨[], []⟩ "USD" "HUF" .bad).2 "USD" "HUF" .bad).2).log
      = [("USD", "HUF"), ("USD", "HUF")] := by
  decide

/-- C5 (amended): a first uncached lookup of a pair of distinct currencies
that succeeds issues exactly one (logged) network call and memoizes the rate
keyed by the ordered pair; a subsequent lookup of the same pair — whatever
the network would answer — returns the memoized value with the state
(including the call log) unchanged, i.e. without a network call. -/
theorem fx_cache_memoizes_success (st : FXState) (f t : String) (r : ℚ)
    (resp : FXResponse) (hne : f ≠ t)
    (hmiss : lookupPair st.cache (f, t) = none) :
    get_rate st f t (.ok r) =
      (r, ⟨((f, t), r) :: st.cache, st.log ++ [(f, t)]⟩) ∧
    get_rate ⟨((f, t), r) :: st.cache, st.log ++ [(f, t)]⟩ f t resp =
      (r, ⟨((f, t), r) :: st.cache, st.log ++ [(f, t)]⟩) := by
  constructor
  · unfold get_rate
    rw [if_neg hne, hmiss]
  · unfold get_rate
    rw [if_neg hne]
    simp [lookupPair]

/-- Witness for C5 (amended): first successful USD→HUF lookup at rate 350,
then a second lookup of the same pair. -/
theorem fx_cache_memoizes_success_witness :
    get_rate ⟨[], []⟩ "USD" "HUF" (.ok 350) =
      (350, ⟨[(("USD", "HUF"), 350)], [("USD", "HUF")]⟩) ∧
    get_rate ⟨[(("USD", "HUF"), 350)], [("USD", "HUF")]⟩ "USD" "HUF" .bad =
      (350, ⟨[(("USD", "HUF"), 350)], [("USD", "HUF")]⟩) :=
  fx_cache_memoizes_success ⟨[], []⟩ "USD" "HUF" 350 .bad (by decide) rfl

/-- C9: the mode passed to the reconciliation is `auto` exactly when the
GitHub Actions event name is `schedule` (a scheduled trigger), and `manual`
for every other event name (manual invocation, or the empty string when the
variable is unset, e.g. a local run). -/
theorem run_mode_from_event (gh_event : String) (h : gh_event ≠ "schedule") :
    runMode "schedule" = "auto" ∧ runMode gh_event = "manual" := by
  refine ⟨rfl, ?_⟩
  unfold runMode
  rw [if_neg h]

/-- Witness for C9: the `workflow_dispatch` event (a manual trigger) maps to
`manual`. -/
theorem run_mode_from_event_witness :
    runMode "schedule" = "auto" ∧ runMode "workflow_dispatch" = "manual" :=
  run_mode_from_event "workflow_dispatch" (by decide)

/-! ## C2: concrete run exhibiting the stale-index deletion bug -/

def exTs : String := "2024-05-01T12:00:00+02:00"

def exDate : String := "2024-05-01"

/-- A prior row for `exDate` tagged with mode `m`. -/
def exRow (m : String) : Row :=
  [.str exDate, .str exTs, .str "OLD", .num 1, .num 1, .num 1, .num 1,
   .str "USD", .num 1, .num 1, .str m]

def exNewPos : Position :=
  { ticker := "NEW", display_name := "NEW", quantity := 2, average_price := 3,
    current_price := 4, pnl := 5, currency := "USD", total_value_huf := 2800 }

def exPortfolio : Portfolio :=
  { positions := [exNewPos], timestamp := exTs, total_pnl := 1750 }

/-- Sheet with two prior `manual` rows (row indices 2 and 4) and two prior
`auto` rows (indices 3 and 5) for `exDate`, after the header. -/
def exSheet : Sheet :=
  [headerRow, exRow "manual", exRow "auto", exRow "manual", exRow "auto"]

/-- C2 (code bug): on `exSheet` the manual rows for the date sit at row
indices 2 and 4, so the manual branch issues `delete_rows(2, 2)` then
`delete_rows(4, 4)`; after the first deletion every later row has shifted up
by one, so the second operation deletes what is by then row 4 — the second
`auto` row — instead of the old manual row, which survives. The result keeps
an old manual row (so the manual rows for the date are not exactly the new
snapshot) and loses an auto row (2 before, 1 after), contradicting both the
claim and the function's own docstring ("delete today's rows where
Mode == 'manual'"). -/
theorem manual_mode_stale_index_deletes_auto_row :
    upsert_daily_data exSheet exPortfolio "manual" =
      [headerRow, exRow "auto", exRow "manual",
       rowFor exDate exTs "manual" exNewPos] ∧
    (findallCol exSheet exDate 1).filter
        (fun r => cellValStr exSheet r 11 = "auto") = [3, 5] ∧
    (findallCol (upsert_daily_data exSheet exPortfolio "manual") exDate 1).filter
        (fun r =>
          cellValStr (upsert_daily_data exSheet exPortfolio "manual") r 11
            = "auto") = [2] := by
  refine ⟨rfl, by decide, by decide⟩

/-! ## C6, C7, C8 -/

/-- A raw record whose `quantity` key is absent from the dict. -/
def missingQty : RawPos :=
  ⟨some "MISS", none, some (.num 1), some (.num 2), some (.num 3)⟩

/-- A raw record whose `quantity` is non-numeric (`float` raises). -/
def badQty : RawPos :=
  ⟨some "BAD", some .nonNum, some (.num 1), some (.num 2), some (.num 3)⟩

/-- The end-to-end raw record of C8. -/
def rawAapl : RawPos :=
  ⟨some "AAPL_US_EQ", some (.num 10), some (.num 100), some (.num 110),
   some (.num 100)⟩

/-- C6 counterexample: a record with a MISSING required field is not
skipped — `raw_pos.get("quantity", 0)` defaults the field to 0 and the
record is kept, so a batch consisting of that single record yields a
1-position snapshot where the claim requires the record to be skipped
(hence no snapshot at all, N-1 = 0). -/
theorem missing_field_not_skipped :
    (processOne none 350 400 missingQty).isSome = true ∧
    (process none 350 400 exTs [missingQty]).map
        (fun p => p.positions.length) = some 1 := by
  constructor
  · rfl
  · rfl

/-- C6 (amended): a record with a NON-NUMERIC required field is skipped and
the rest of the batch proceeds: the assembled snapshot (positions and
aggregate P&L alike) is exactly that of the batch with the record removed —
so with exactly one non-numeric record in a batch of N, the snapshot has
N-1 positions and its aggregate P&L excludes the skipped record. A missing
field, by contrast, defaults to 0 and does not cause a skip. -/
theorem nonnumeric_skipped_batch_proceeds
    (md : Option (List (String × Instrument))) (usd_huf eur_huf : ℚ)
    (ts : String) (bad : RawPos) (l1 l2 : List RawPos)
    (hb : bad.quantity = some FieldVal.nonNum) (hne : l1 ++ l2 ≠ []) :
    processOne md usd_huf eur_huf bad = none ∧
    process md usd_huf eur_huf ts (l1 ++ bad :: l2) =
      process md usd_huf eur_huf ts (l1 ++ l2) := by
  have h1 : processOne md usd_huf eur_huf bad = none := by
    simp [processOne, parseFields, hb, parseField]
  refine ⟨h1, ?_⟩
  have h2 : (l1 ++ bad :: l2).isEmpty = false := by
    simp
  have h3 : (l1 ++ l2).isEmpty = false := by
    simpa using hne
  unfold process
  rw [h2, h3]
  simp [List.filterMap_append, List.filterMap_cons, h1]

/-- Witness for C6 (amended): a batch of the AAPL record and one
non-numeric-quantity record behaves as the batch of the AAPL record alone. -/
theorem nonnumeric_skipped_batch_proceeds_witness :
    processOne none 350 400 badQty = none ∧
    process none 350 400 exTs [rawAapl, badQty] =
      process none 350 400 exTs [rawAapl] :=
  nonnumeric_skipped_batch_proceeds none 350 400 exTs badQty [rawAapl] []
    rfl (by decide)

/-- C7: the portfolio assembler returns no snapshot exactly when the raw
input list is empty or no record survives normalisation (every record has
some non-convertible required field); the embedding is a total function, so
neither case is an error. -/
theorem process_none_iff_empty_or_no_valid
    (md : Option (List (String × Instrument))) (usd_huf eur_huf : ℚ)
    (ts : String) (raw_positions : List RawPos) :
    process md usd_huf eur_huf ts raw_positions = none ↔
      (raw_positions = [] ∨
       raw_positions.all (fun r => (parseFields r).isNone) = true) := by
  unfold process
  cases raw_positions with
  | nil => simp
  | cons a l =>
    have h2 : ((a :: l).filterMap (processOne md usd_huf eur_huf)).isEmpty
        = true ↔ (a :: l).all (fun r => (parseFields r).isNone) = true := by
      simp [List.isEmpty_iff, List.filterMap_eq_nil_iff, processOne,
        Option.map_eq_none', List.all_eq_true, Option.isNone_iff_eq_none]
    cases hE : ((a :: l).filterMap (processOne md usd_huf eur_huf)).isEmpty with
    | true => simp [hE, h2.mp hE]
    | false =>
      have hall : ¬ ((a :: l).all (fun r => (parseFields r).isNone) = true) :=
        fun hh => by simp [h2.mpr hh] at hE
      simp [hE, hall]

/-- C8: the end-to-end scenario — AAPL_US_EQ with quantity 10, average
price 100, current price 110, ppl 100, no metadata, USD→HUF = 350 (EUR→HUF
is 400, unused): the ticker's `_US_` marker resolves the currency to USD,
the HUF value is 10 × 110 × 350 = 385000, and the snapshot's aggregate P&L
is 100 × 350 = 35000. -/
theorem e2e_us_marker_huf_values :
    process none 350 400 exTs [rawAapl] =
      some { positions :=
               [{ ticker := "AAPL_US_EQ", display_name := "AAPL_US_EQ",
                  quantity := 10, average_price := 100, current_price := 110,
                  pnl := 100, currency := "USD",
                  total_value_huf := 385000 }],
             timestamp := exTs, total_pnl := 35000 } := by
  have hres : resolveCurrency none "AAPL_US_EQ" = ("USD", "AAPL_US_EQ") := by
    decide
  norm_num [process, processOne, parseFields, parseField, rawAapl, hres,
    fxRateFor, List.filterMap_cons, List.filterMap_nil]

/-! ## C10 -/

/-- C10: a position whose resolved currency is neither USD nor EUR keeps the
literal rate 1.0: its HUF value is `quantity * current_price` unconverted,
its P&L enters the aggregate unconverted, and no FX lookup for that currency
is ever issued — `process` only ever looks up USD→HUF and EUR→HUF. -/
theorem other_currency_rate_is_one (md : Option (List (String × Instrument)))
    (usd_huf eur_huf : ℚ) (raw : RawPos) (pos : Position) (contrib : ℚ)
    (c : String) (raws : List RawPos)
    (hp : processOne md usd_huf eur_huf raw = some (pos, contrib))
    (hc : pos.currency = c) (hus : c ≠ "USD") (heu : c ≠ "EUR") :
    pos.total_value_huf = pos.quantity * pos.current_price ∧
    contrib = pos.pnl ∧
    (c, "HUF") ∉ processLookups raws := by
  obtain ⟨_, htv, hco⟩ := processOne_fields md usd_huf eur_huf raw pos contrib hp
  have h1 : fxRateFor c usd_huf eur_huf = 1 := by
    unfold fxRateFor
    rw [if_neg hus, if_neg heu]
  refine ⟨by rw [htv, hc, h1, mul_one], by rw [hco, hc, h1, mul_one], ?_⟩
  unfold processLookups
  intro hmem
  split at hmem
  · simp at hmem
  · simp only [List.mem_cons, List.mem_singleton] at hmem
    rcases hmem with h | h | h
    · exact hus (congrArg Prod.fst h)
    · exact heu (congrArg Prod.fst h)
    · exact absurd h (List.not_mem_nil _)

/-- Concrete metadata and record for the C10 witness: the instrument dict
resolves VOD to GBP. -/
def mdGbp : Option (List (String × Instrument)) :=
  some [("VOD", ⟨some "GBP", some "Vodafone"⟩)]

def rawGbp : RawPos :=
  ⟨some "VOD", some (.num 2), some (.num 1), some (.num 3), some (.num 5)⟩

def posGbp : Position :=
  { ticker := "VOD", display_name := "Vodafone", quantity := 2,
    average_price := 1, current_price := 3, pnl := 5, currency := "GBP",
    total_value_huf := 6 }

/-- Witness for C10: a GBP position under USD→HUF = 350, EUR→HUF = 400. -/
theorem other_currency_rate_is_one_witness :
    posGbp.total_value_huf = posGbp.quantity * posGbp.current_price ∧
    (5 : ℚ) = posGbp.pnl ∧
    ("GBP", "HUF") ∉ processLookups [rawGbp] :=
  other_currency_rate_is_one mdGbp 350 400 rawGbp posGbp 5 "GBP" [rawGbp]
    (by
      norm_num [processOne, parseFields, parseField, rawGbp, mdGbp, posGbp,
        resolveCurrency, lookupInstr, fxRateFor]
      decide)
    rfl (by decide) (by decide)
